import Mathlib

/-!
Verification development for the `geo` planar-geometry library
(`src/geo.hpp`).

The library is a header of C++ templates; every claim instantiates the
numeric parameter `T` with an exact signed integer type, so the shallow
embedding fixes `T := Int`.  C++ truncated division and remainder on
signed integers are `Int.tdiv` and `Int.tmod`.  C++ `bool` converted to
an integer (as happens in `sgn` and in the chained comparison of
`seg_contains`) is modelled by `boolToInt`.
-/

namespace geo

/-- Point (geo.hpp, `Point<T>`): a pair of coordinates. -/
structure Point (T : Type) where
  x : T
  y : T
deriving DecidableEq, Repr

/-- Segment (geo.hpp, `seg_t<T> = std::pair<pos_t<T>, pos_t<T>>`):
`first`/`second` are modelled by `Prod.fst`/`Prod.snd`. -/
abbrev Seg := Point Int × Point Int

/-- Matrix3x3 (geo.hpp, `Matrix3x3<T>`): nine values in
initializer-list order; the flat store `vals` is row-major. -/
structure Matrix3x3 where
  v0 : Int
  v1 : Int
  v2 : Int
  v3 : Int
  v4 : Int
  v5 : Int
  v6 : Int
  v7 : Int
  v8 : Int

/-- Element access of `Matrix3x3`: `m[{col, row}] = vals[row * 3 + col]`.
The source performs no bounds check (caller guarantees the range), so an
out-of-range index returns an arbitrary entry. -/
def Matrix3x3.get (m : Matrix3x3) (ix : Nat × Nat) : Int :=
  match ix.2 * 3 + ix.1 with
  | 0 => m.v0
  | 1 => m.v1
  | 2 => m.v2
  | 3 => m.v3
  | 4 => m.v4
  | 5 => m.v5
  | 6 => m.v6
  | 7 => m.v7
  | _ => m.v8

/-- Matrix2x2 (geo.hpp, `Matrix2x2<T>`): four values in
initializer-list order; the flat store `vals` is row-major. -/
structure Matrix2x2 where
  v0 : Int
  v1 : Int
  v2 : Int
  v3 : Int

/-- Element access of `Matrix2x2`: `m[{col, row}] = vals[row * 2 + col]`. -/
def Matrix2x2.get (m : Matrix2x2) (ix : Nat × Nat) : Int :=
  match ix.2 * 2 + ix.1 with
  | 0 => m.v0
  | 1 => m.v1
  | 2 => m.v2
  | _ => m.v3

/-- Determinant of a 3x3 matrix (geo.hpp line 134), term for term. -/
def det3 (m : Matrix3x3) : Int :=
  m.get (0, 0) * m.get (1, 1) * m.get (2, 2)
  + m.get (0, 1) * m.get (1, 2) * m.get (2, 0)
  + m.get (0, 2) * m.get (1, 0) * m.get (2, 1)
  - m.get (2, 0) * m.get (1, 1) * m.get (0, 2)
  - m.get (2, 1) * m.get (1, 2) * m.get (0, 0)
  - m.get (2, 2) * m.get (1, 0) * m.get (0, 1)

/-- Determinant of a 2x2 matrix (geo.hpp line 147). -/
def det2 (m : Matrix2x2) : Int :=
  m.get (0, 0) * m.get (1, 1) - m.get (1, 0) * m.get (0, 1)

/-- C++ conversion of `bool` to an integer: `true` is 1, `false` is 0. -/
def boolToInt (b : Bool) : Int :=
  if b then 1 else 0

/-- Sign function (geo.hpp line 153): `(T(0) < value) - (value < T(0))`,
where the two comparisons are C++ `bool`s converted to integers. -/
def sgn (value : Int) : Int :=
  boolToInt (decide (0 < value)) - boolToInt (decide (value < 0))

/-- Orientation test (geo.hpp line 163): the sign of the determinant of
the homogeneous 3x3 matrix of `seg.first`, `seg.second`, `point`. -/
def side (seg : Seg) (point : Point Int) : Int :=
  sgn (det3 ⟨seg.1.x, seg.1.y, 1, seg.2.x, seg.2.y, 1, point.x, point.y, 1⟩)

/-- Same-side test (geo.hpp line 176). -/
def same_side (seg : Seg) (point1 point2 : Point Int) : Bool :=
  decide (side seg point1 = side seg point2)

/-- Segment-containment test (geo.hpp line 183).  The source writes the
bounding-box test as the C++ chained comparison
`std::min(x1, x2) <= point.x <= std::max(x1, x2)`, which parses as
`(min <= point.x) <= max`: the first comparison yields a `bool` that is
converted to `0` or `1` and then compared with the maximum.  The
embedding reproduces that parse exactly. -/
def seg_contains (seg : Seg) (point : Point Int) : Bool :=
  decide (side seg point = 0)
  && decide (boolToInt (decide (min seg.1.x seg.2.x ≤ point.x)) ≤ max seg.1.x seg.2.x)
  && decide (boolToInt (decide (min seg.1.y seg.2.y ≤ point.y)) ≤ max seg.1.y seg.2.y)

/-- Segment-intersection test (geo.hpp line 192). -/
def seg_intersects (seg1 seg2 : Seg) : Bool :=
  (!same_side seg1 seg2.1 seg2.2 && !same_side seg2 seg1.1 seg1.2)
  || seg_contains seg1 seg2.1 || seg_contains seg1 seg2.2
  || seg_contains seg2 seg1.1 || seg_contains seg2 seg1.2

/-- One pass of the `gcd` loop body (geo.hpp line 76), fuel-indexed so
that the definition is structurally recursive: each iteration replaces
`(a, b)` by `(b, a % b)` with the C++ truncated remainder.  The fuel
only bounds the iteration count; `gcdLoop_congr` shows the result does
not depend on it once it exceeds `|b|`. -/
def gcdLoop : Nat → Int → Int → Int
  | 0, a, _ => a
  | fuel + 1, a, b => if b = 0 then a else gcdLoop fuel b (a.tmod b)

/-- Iterative Euclidean `gcd` of the source (geo.hpp line 76): loop
while `b != 0`, replacing `(a, b)` by `(b, a % b)`, and return `a`. -/
def cppGcd (a b : Int) : Int :=
  gcdLoop (b.natAbs + 1) a b

/-- Fraction (geo.hpp, `Fraction<T>`): numerator and denominator stored
verbatim. -/
structure Fraction where
  num : Int
  den : Int
deriving DecidableEq, Repr

/-- Fraction constructor (geo.hpp line 91): stores both fields verbatim,
but throws `std::domain_error` when the denominator is zero.  The throw
is modelled by the `Except.error` branch. -/
def mkFraction (numerator denominator : Int) : Except Unit Fraction :=
  if denominator ≠ 0 then Except.ok ⟨numerator, denominator⟩ else Except.error ()

/-- Fraction reduction (geo.hpp lines 102 and 108: the value-returning
and the in-place form compute the same result): divide both fields by
`gcd(num, den)` using C++ truncated division. -/
def Fraction.reduce (f : Fraction) : Fraction :=
  let div := cppGcd f.num f.den
  ⟨f.num.tdiv div, f.den.tdiv div⟩

/-- Denominator determinant of `seg_intersection` (geo.hpp lines
204-210): `det` of the matrix of endpoint differences. -/
def denDet (seg1 seg2 : Seg) : Int :=
  det2 ⟨seg1.1.x - seg1.2.x, seg1.1.y - seg1.2.y,
        seg2.1.x - seg2.2.x, seg2.1.y - seg2.2.y⟩

/-- The local `det<T>(m1)` / `det<T>(m2)` of `seg_intersection`
(geo.hpp lines 216-224): determinant of a segment's endpoint matrix. -/
def endpointDet (seg : Seg) : Int :=
  det2 ⟨seg.1.x, seg.1.y, seg.2.x, seg.2.y⟩

/-- The numerator determinant `det<T>(xnum)` of `seg_intersection`
(geo.hpp lines 226-229). -/
def xnumDet (seg1 seg2 : Seg) : Int :=
  det2 ⟨endpointDet seg1, seg1.1.x - seg1.2.x,
        endpointDet seg2, seg2.1.x - seg2.2.x⟩

/-- The numerator determinant `det<T>(ynum)` of `seg_intersection`
(geo.hpp lines 231-234). -/
def ynumDet (seg1 seg2 : Seg) : Int :=
  det2 ⟨endpointDet seg1, seg1.1.y - seg1.2.y,
        endpointDet seg2, seg2.1.y - seg2.2.y⟩

/-- Exact line-intersection point (geo.hpp line 202): `none` when the
denominator determinant vanishes, otherwise the two reduced fractions
`xnum / den_det` and `ynum / den_det`.  The local matrices of the source
are the named definitions `denDet`, `endpointDet`, `xnumDet`, `ynumDet`. -/
def seg_intersection (seg1 seg2 : Seg) : Option (Point Fraction) :=
  if denDet seg1 seg2 = 0 then
    none
  else
    some ⟨(Fraction.mk (xnumDet seg1 seg2) (denDet seg1 seg2)).reduce,
          (Fraction.mk (ynumDet seg1 seg2) (denDet seg1 seg2)).reduce⟩

/-- Exact line-intersection point with the fallible fraction
constructor made explicit: identical to `seg_intersection` except that
the two `Fraction` constructions go through `mkFraction`, surfacing the
`std::domain_error` branch of the source as an `Except.error`. -/
def seg_intersectionE (seg1 seg2 : Seg) : Except Unit (Option (Point Fraction)) :=
  if denDet seg1 seg2 = 0 then
    Except.ok none
  else
    match mkFraction (xnumDet seg1 seg2) (denDet seg1 seg2),
          mkFraction (ynumDet seg1 seg2) (denDet seg1 seg2) with
    | Except.ok fx, Except.ok fy => Except.ok (some ⟨fx.reduce, fy.reduce⟩)
    | _, _ => Except.error ()


lemma natAbs_tmod (a b : Int) : (a.tmod b).natAbs = a.natAbs % b.natAbs := by
  cases a <;> cases b <;>
    simp only [Int.tmod, Int.natAbs_neg, Int.natAbs_ofNat, Int.natAbs_negSucc,
      Nat.succ_eq_add_one] <;> rfl

lemma natAbs_tmod_lt (a : Int) {b : Int} (hb : b ≠ 0) :
    (a.tmod b).natAbs < b.natAbs := by
  rw [natAbs_tmod]
  exact Nat.mod_lt _ (Nat.pos_of_ne_zero (Int.natAbs_ne_zero.mpr hb))

lemma gcdLoop_congr : ∀ (fuel fuel' : Nat) (a b : Int),
    b.natAbs < fuel → b.natAbs < fuel' → gcdLoop fuel a b = gcdLoop fuel' a b := by
  intro fuel
  induction fuel with
  | zero => intro fuel' a b h; omega
  | succ k ih =>
    intro fuel' a b h h'
    cases fuel' with
    | zero => omega
    | succ k' =>
      simp only [gcdLoop]
      by_cases hb : b = 0
      · simp [hb]
      · simp only [hb, if_false]
        exact ih k' b (a.tmod b)
          (lt_of_lt_of_le (natAbs_tmod_lt a hb) (Nat.lt_succ_iff.mp h))
          (lt_of_lt_of_le (natAbs_tmod_lt a hb) (Nat.lt_succ_iff.mp h'))

/-- Unfolding equation of `cppGcd`, matching one iteration of the C++ loop. -/
lemma cppGcd_eq (a b : Int) :
    cppGcd a b = if b = 0 then a else cppGcd b (a.tmod b) := by
  by_cases hb : b = 0
  · simp [cppGcd, gcdLoop, hb]
  · rw [if_neg hb]
    show gcdLoop (b.natAbs + 1) a b = cppGcd b (a.tmod b)
    rw [show gcdLoop (b.natAbs + 1) a b = gcdLoop b.natAbs b (a.tmod b) from by
      simp [gcdLoop, hb]]
    exact gcdLoop_congr b.natAbs ((a.tmod b).natAbs + 1) b (a.tmod b)
      (natAbs_tmod_lt a hb) (Nat.lt_succ_self _)

lemma cppGcd_natAbs_bounded : ∀ (n : Nat) (a b : Int), b.natAbs ≤ n →
    (cppGcd a b).natAbs = Nat.gcd a.natAbs b.natAbs := by
  intro n
  induction n with
  | zero =>
    intro a b h
    have hb : b = 0 := Int.natAbs_eq_zero.mp (Nat.le_zero.mp h)
    simp [cppGcd_eq, hb]
  | succ k ih =>
    intro a b h
    by_cases hb : b = 0
    · simp [cppGcd_eq, hb]
    · rw [cppGcd_eq, if_neg hb, ih b (a.tmod b)
        (by have := natAbs_tmod_lt a hb; omega), natAbs_tmod]
      conv_lhs => rw [Nat.gcd_comm, ← Nat.gcd_rec, Nat.gcd_comm]

/-- The magnitude of the C++ `gcd` is the mathematical gcd of the
operand magnitudes. -/
lemma cppGcd_natAbs (a b : Int) :
    (cppGcd a b).natAbs = Nat.gcd a.natAbs b.natAbs :=
  cppGcd_natAbs_bounded b.natAbs a b le_rfl

lemma cppGcd_dvd_left (a b : Int) : cppGcd a b ∣ a := by
  rw [← Int.natAbs_dvd_natAbs, cppGcd_natAbs]
  exact Nat.gcd_dvd_left _ _

lemma cppGcd_dvd_right (a b : Int) : cppGcd a b ∣ b := by
  rw [← Int.natAbs_dvd_natAbs, cppGcd_natAbs]
  exact Nat.gcd_dvd_right _ _

lemma cppGcd_ne_zero (a : Int) {b : Int} (hb : b ≠ 0) : cppGcd a b ≠ 0 := by
  rw [← Int.natAbs_ne_zero, cppGcd_natAbs]
  exact Nat.ne_of_gt (Nat.gcd_pos_of_pos_right _ (Int.natAbs_pos.mpr hb))


lemma reduce_num_eq (n d : Int) (hd : d ≠ 0) {k : Int} (hk : n = cppGcd n d * k) :
    ((Fraction.mk n d).reduce).num = k := by
  show n.tdiv (cppGcd n d) = k
  have h := Int.mul_tdiv_cancel_left k (cppGcd_ne_zero n hd)
  rw [← hk] at h
  exact h

lemma reduce_den_eq (n d : Int) (hd : d ≠ 0) {l : Int} (hl : d = cppGcd n d * l) :
    ((Fraction.mk n d).reduce).den = l := by
  show d.tdiv (cppGcd n d) = l
  have h := Int.mul_tdiv_cancel_left l (cppGcd_ne_zero n hd)
  rw [← hl] at h
  exact h

lemma reduce_den_ne_zero (n d : Int) (hd : d ≠ 0) :
    ((Fraction.mk n d).reduce).den ≠ 0 := by
  obtain ⟨l, hl⟩ := cppGcd_dvd_right n d
  rw [reduce_den_eq n d hd hl]
  intro h0
  exact hd (by rw [hl, h0, mul_zero])

lemma reduce_cross (n d : Int) (hd : d ≠ 0) :
    ((Fraction.mk n d).reduce).num * d = n * ((Fraction.mk n d).reduce).den := by
  obtain ⟨k, hk⟩ := cppGcd_dvd_left n d
  obtain ⟨l, hl⟩ := cppGcd_dvd_right n d
  rw [reduce_num_eq n d hd hk, reduce_den_eq n d hd hl]
  conv_lhs => rw [hl]
  conv_rhs => rw [hk]
  ring

lemma reduce_gcd_one (n d : Int) (hd : d ≠ 0) :
    Int.gcd ((Fraction.mk n d).reduce).num ((Fraction.mk n d).reduce).den = 1 := by
  have hG : 0 < Nat.gcd n.natAbs d.natAbs :=
    Nat.gcd_pos_of_pos_right _ (Int.natAbs_pos.mpr hd)
  have h1 : (((Fraction.mk n d).reduce).num).natAbs = n.natAbs / Nat.gcd n.natAbs d.natAbs := by
    show (n.tdiv (cppGcd n d)).natAbs = _
    rw [Int.natAbs_tdiv, cppGcd_natAbs]
    rfl
  have h2 : (((Fraction.mk n d).reduce).den).natAbs = d.natAbs / Nat.gcd n.natAbs d.natAbs := by
    show (d.tdiv (cppGcd n d)).natAbs = _
    rw [Int.natAbs_tdiv, cppGcd_natAbs]
    rfl
  show Nat.gcd _ _ = 1
  rw [h1, h2]
  exact Nat.coprime_div_gcd_div_gcd hG

lemma reduce_ratQ (n d : Int) (hd : d ≠ 0) :
    ((((Fraction.mk n d).reduce).num : ℚ)) / (((Fraction.mk n d).reduce).den : ℚ)
      = (n : ℚ) / (d : ℚ) := by
  have hden : ((((Fraction.mk n d).reduce).den : Int) : ℚ) ≠ 0 :=
    Int.cast_ne_zero.mpr (reduce_den_ne_zero n d hd)
  have hd' : ((d : Int) : ℚ) ≠ 0 := Int.cast_ne_zero.mpr hd
  rw [div_eq_div_iff hden hd']
  exact_mod_cast reduce_cross n d hd


/-! ### Unfolding lemmas for the determinants and the sign function -/

/-- Determinant of a 2x2 initializer list, written out. -/
lemma det2_mk (a b c d : Int) : det2 ⟨a, b, c, d⟩ = a * d - b * c := rfl

/-- Determinant of a 3x3 initializer list, written out in the source's
term order. -/
lemma det3_mk (a b c d e f g h i : Int) :
    det3 ⟨a, b, c, d, e, f, g, h, i⟩ =
      a * e * i + d * h * c + g * b * f - c * e * g - f * h * a - i * b * d := rfl

lemma sgn_eq_zero_iff (v : Int) : sgn v = 0 ↔ v = 0 := by
  unfold sgn boolToInt
  simp only [decide_eq_true_eq]
  split_ifs <;> omega

lemma sgn_eq_neg_one_iff (v : Int) : sgn v = -1 ↔ v < 0 := by
  unfold sgn boolToInt
  simp only [decide_eq_true_eq]
  split_ifs <;> omega

lemma sgn_eq_one_iff (v : Int) : sgn v = 1 ↔ 0 < v := by
  unfold sgn boolToInt
  simp only [decide_eq_true_eq]
  split_ifs <;> omega

lemma sgn_trichotomy (v : Int) : sgn v = -1 ∨ sgn v = 0 ∨ sgn v = 1 := by
  unfold sgn boolToInt
  simp only [decide_eq_true_eq]
  split_ifs <;> omega

/-- The 3x3 homogeneous determinant used by `side` equals the planar
cross product of `B - A` and `P - A`. -/
lemma side_eq_sgn_cross (seg : Seg) (p : Point Int) :
    side seg p =
      sgn ((seg.2.x - seg.1.x) * (p.y - seg.1.y)
        - (seg.2.y - seg.1.y) * (p.x - seg.1.x)) := by
  unfold side
  rw [det3_mk]
  ring_nf

/-! ### Mathematical (specification-side) geometric notions

These definitions transcribe the specification's own geometric
vocabulary; the claim theorems compare the source functions above
against them. -/

/-- Three points are collinear: the cross product of `B - A` and
`P - A` vanishes. -/
def Collinear3 (A B P : Point Int) : Prop :=
  (B.x - A.x) * (P.y - A.y) = (B.y - A.y) * (P.x - A.x)

/-- Point `P` lies strictly to the left of the directed line from `A`
to `B`.  The plane is oriented as in screen coordinates (x to the
right, y downward), the orientation under which the source comment
"-1 - left" is coherent; with that orientation the left open half-plane
is where the cross product of `B - A` and `P - A` is negative. -/
def LeftOfLine (A B P : Point Int) : Prop :=
  (B.x - A.x) * (P.y - A.y) - (B.y - A.y) * (P.x - A.x) < 0

/-- Point `P` lies strictly to the right of the directed line from `A`
to `B`, with the same screen orientation as `LeftOfLine`. -/
def RightOfLine (A B P : Point Int) : Prop :=
  0 < (B.x - A.x) * (P.y - A.y) - (B.y - A.y) * (P.x - A.x)

/-- Genuine closed bounding-box membership: a two-sided interval check
on each axis. -/
def InBBox (seg : Seg) (p : Point Int) : Prop :=
  (min seg.1.x seg.2.x ≤ p.x ∧ p.x ≤ max seg.1.x seg.2.x)
  ∧ (min seg.1.y seg.2.y ≤ p.y ∧ p.y ≤ max seg.1.y seg.2.y)

/-- Point `p` lies strictly outside the bounding box of `seg` on at
least one axis. -/
def StrictlyOutsideBBox (seg : Seg) (p : Point Int) : Prop :=
  p.x < min seg.1.x seg.2.x ∨ max seg.1.x seg.2.x < p.x
  ∨ p.y < min seg.1.y seg.2.y ∨ max seg.1.y seg.2.y < p.y

/-- Segment containment as the specification states it: collinear with
the segment and inside its axis-aligned bounding box on both axes. -/
def SegContainsSpec (seg : Seg) (p : Point Int) : Prop :=
  side seg p = 0 ∧ InBBox seg p

/-- Two points lie on strictly opposite sides of the line through a
segment. -/
def StrictOppSides (seg : Seg) (p q : Point Int) : Prop :=
  side seg p * side seg q < 0

/-- Boolean segment intersection as the specification states it:
a proper crossing, or some endpoint of either segment geometrically on
the other segment. -/
def SegIntersectsSpec (seg1 seg2 : Seg) : Prop :=
  (StrictOppSides seg1 seg2.1 seg2.2 ∧ StrictOppSides seg2 seg1.1 seg1.2)
  ∨ SegContainsSpec seg1 seg2.1 ∨ SegContainsSpec seg1 seg2.2
  ∨ SegContainsSpec seg2 seg1.1 ∨ SegContainsSpec seg2 seg1.2

/-- A rational point satisfies the equation of the infinite line
through `A` and `B`. -/
def OnLineQ (A B : Point Int) (q : Rat × Rat) : Prop :=
  ((B.x - A.x : Int) : Rat) * (q.2 - (A.y : Rat))
    = ((B.y - A.y : Int) : Rat) * (q.1 - (A.x : Rat))

/-- Two integer vectors are linearly dependent: a nontrivial integer
combination of them vanishes. -/
def LinDepPair (u v : Int × Int) : Prop :=
  ∃ s t : Int, ¬(s = 0 ∧ t = 0)
    ∧ s * u.1 + t * v.1 = 0 ∧ s * u.2 + t * v.2 = 0

/-- The rational coordinates denoted by a pair of fractions. -/
def fracPointQ (fx fy : Fraction) : Rat × Rat :=
  ((fx.num : Rat) / (fx.den : Rat), (fy.num : Rat) / (fy.den : Rat))

/-! ### Helper lemmas for the intersection claims -/

/-- A vanishing 2x2 determinant of two integer vectors is equivalent to
their linear dependence. -/
lemma det_zero_iff_linDep (ux uy vx vy : Int) :
    ux * vy - uy * vx = 0 ↔ LinDepPair (ux, uy) (vx, vy) := by
  constructor
  · intro h
    by_cases hu : ux = 0 ∧ uy = 0
    · exact ⟨1, 0, by simp, by simp [hu.1], by simp [hu.2]⟩
    · by_cases hy : uy = 0 ∧ vy = 0
      · refine ⟨vx, -ux, ?_, by ring, by simp [hy.1, hy.2]⟩
        intro hc
        exact hu ⟨by omega, hy.1⟩
      · refine ⟨vy, -uy, ?_, by linear_combination h, by ring⟩
        intro hc
        exact hy ⟨by omega, hc.1⟩
  · rintro ⟨s, t, hst, h1, h2⟩
    rcases not_and_or.mp hst with hs | ht
    · have hz : s * (ux * vy - uy * vx) = 0 := by linear_combination vy * h1 - vx * h2
      rcases mul_eq_zero.mp hz with h | h
      · exact absurd h hs
      · exact h
    · have hz : t * (ux * vy - uy * vx) = 0 := by linear_combination ux * h2 - uy * h1
      rcases mul_eq_zero.mp hz with h | h
      · exact absurd h ht
      · exact h

/-! ### Claim theorems -/

/-- C6: constructing `Fraction(n, d)` fails with a domain error exactly
when `d = 0`; otherwise both fields are stored verbatim, with no
reduction or sign canonicalization. -/
theorem fraction_ctor_spec (n d : Int) :
    (mkFraction n d = Except.error () ↔ d = 0)
    ∧ (d ≠ 0 → mkFraction n d = Except.ok ⟨n, d⟩) := by
  constructor
  · unfold mkFraction
    by_cases h : d = 0 <;> simp [h]
  · intro h
    simp [mkFraction, h]

/-- Witness for `fraction_ctor_spec` at concrete inputs. -/
theorem fraction_ctor_spec_witness :
    mkFraction 5 0 = Except.error ()
    ∧ ((3 : Int) ≠ 0) ∧ mkFraction 7 3 = Except.ok ⟨7, 3⟩ :=
  ⟨(fraction_ctor_spec 5 0).1.mpr rfl, by decide, (fraction_ctor_spec 7 3).2 (by decide)⟩

/-- C10: for every nonzero denominator `d`, `gcd(0, d)` evaluates to
`d` itself and reducing `Fraction(0, d)` yields exactly `0/1`. -/
theorem reduce_zero_num (d : Int) (hd : d ≠ 0) :
    cppGcd 0 d = d ∧ (Fraction.mk 0 d).reduce = ⟨0, 1⟩ := by
  have hg : cppGcd 0 d = d := by
    rw [cppGcd_eq, if_neg hd, Int.zero_tmod, cppGcd_eq, if_pos rfl]
  refine ⟨hg, ?_⟩
  show (⟨(0 : Int).tdiv (cppGcd 0 d), d.tdiv (cppGcd 0 d)⟩ : Fraction) = ⟨0, 1⟩
  rw [hg, Int.zero_tdiv, Int.tdiv_self hd]

/-- Witness for `reduce_zero_num` at a negative denominator. -/
theorem reduce_zero_num_witness :
    ((-7 : Int) ≠ 0)
    ∧ (cppGcd 0 (-7) = -7 ∧ (Fraction.mk 0 (-7)).reduce = ⟨0, 1⟩) :=
  ⟨by decide, reduce_zero_num (-7) (by decide)⟩

/-- C7: reducing `Fraction(n, d)` for nonzero `n, d` preserves the
exact ratio (cross-multiplication equivalence) and lands in lowest
terms: the gcd of the reduced fields is 1 in absolute value. -/
theorem reduce_round_trip (n d : Int) (_hn : n ≠ 0) (hd : d ≠ 0) :
    ((Fraction.mk n d).reduce).num * d = n * ((Fraction.mk n d).reduce).den
    ∧ Int.gcd ((Fraction.mk n d).reduce).num ((Fraction.mk n d).reduce).den = 1 :=
  ⟨reduce_cross n d hd, reduce_gcd_one n d hd⟩

/-- Witness for `reduce_round_trip` at `6/4`. -/
theorem reduce_round_trip_witness :
    ((6 : Int) ≠ 0) ∧ ((4 : Int) ≠ 0)
    ∧ (((Fraction.mk 6 4).reduce).num * 4 = 6 * ((Fraction.mk 6 4).reduce).den
        ∧ Int.gcd ((Fraction.mk 6 4).reduce).num ((Fraction.mk 6 4).reduce).den = 1) :=
  ⟨by decide, by decide, reduce_round_trip 6 4 (by decide) (by decide)⟩

/-- C8: `side` is the sign, in the sense of `sgn(v) = (0 < v) - (v < 0)`,
of the determinant of the homogeneous matrix of `A`, `B`, `P`; the sign
is always in `{-1, 0, 1}`, is `0` exactly on collinear triples, `-1`
exactly when `P` is strictly left of the directed line `A` to `B`, and
`1` exactly when `P` is strictly right of it (plane oriented as in
screen coordinates, the orientation under which the source's sign
comment is coherent). -/
theorem side_sign_spec (A B P : Point Int) :
    side (A, B) P = sgn (det3 ⟨A.x, A.y, 1, B.x, B.y, 1, P.x, P.y, 1⟩)
    ∧ (side (A, B) P = -1 ∨ side (A, B) P = 0 ∨ side (A, B) P = 1)
    ∧ (side (A, B) P = 0 ↔ Collinear3 A B P)
    ∧ (side (A, B) P = -1 ↔ LeftOfLine A B P)
    ∧ (side (A, B) P = 1 ↔ RightOfLine A B P) := by
  refine ⟨rfl, ?_, ?_, ?_, ?_⟩
  · rw [side_eq_sgn_cross]
    exact sgn_trichotomy _
  · rw [side_eq_sgn_cross, sgn_eq_zero_iff]
    exact sub_eq_zero
  · rw [side_eq_sgn_cross, sgn_eq_neg_one_iff]
    exact Iff.rfl
  · rw [side_eq_sgn_cross, sgn_eq_one_iff]
    exact Iff.rfl

/-- C1 (divergence): the chained comparison makes `seg_contains` accept
the collinear point `(5,5)` on segment `(0,0)-(2,2)`, although the
specified predicate (collinearity plus genuine two-sided bounding-box
membership) rejects it. -/
theorem seg_contains_chain_divergence :
    seg_contains (⟨0, 0⟩, ⟨2, 2⟩) ⟨5, 5⟩ = true
    ∧ ¬ SegContainsSpec (⟨0, 0⟩, ⟨2, 2⟩) ⟨5, 5⟩ := by
  constructor
  · decide
  · unfold SegContainsSpec InBBox
    decide

/-- C3 (divergence): `seg_contains` rejects the endpoint `(-1,-1)` of
segment `(-2,-2)-(-1,-1)` and accepts the point `(5,5)` that is
strictly outside the bounding box of segment `(0,0)-(2,2)`. -/
theorem seg_contains_endpoint_divergence :
    seg_contains (⟨-2, -2⟩, ⟨-1, -1⟩) ⟨-1, -1⟩ = false
    ∧ (seg_contains (⟨0, 0⟩, ⟨2, 2⟩) ⟨5, 5⟩ = true
        ∧ StrictlyOutsideBBox (⟨0, 0⟩, ⟨2, 2⟩) ⟨5, 5⟩) := by
  refine ⟨by decide, by decide, ?_⟩
  unfold StrictlyOutsideBBox
  decide

/-- C2 (divergence): through the buggy `seg_contains`, `seg_intersects`
reports an intersection of `(0,0)-(2,2)` with `(5,5)-(6,4)`, although
the segments neither properly cross nor touch: no endpoint of either
lies geometrically on the other segment. -/
theorem seg_intersects_divergence :
    seg_intersects (⟨0, 0⟩, ⟨2, 2⟩) (⟨5, 5⟩, ⟨6, 4⟩) = true
    ∧ ¬ SegIntersectsSpec (⟨0, 0⟩, ⟨2, 2⟩) (⟨5, 5⟩, ⟨6, 4⟩) := by
  constructor
  · decide
  · unfold SegIntersectsSpec SegContainsSpec StrictOppSides InBBox
    decide

/-- C5: `seg_intersection` is absent exactly when the denominator
determinant of the endpoint differences vanishes, which happens exactly
when the two direction vectors are linearly dependent; no coincident
lines are special-cased. -/
theorem seg_intersection_none_iff (seg1 seg2 : Seg) :
    (seg_intersection seg1 seg2 = none ↔ denDet seg1 seg2 = 0)
    ∧ (denDet seg1 seg2 = 0 ↔
        LinDepPair (seg1.1.x - seg1.2.x, seg1.1.y - seg1.2.y)
          (seg2.1.x - seg2.2.x, seg2.1.y - seg2.2.y)) := by
  constructor
  · by_cases h : denDet seg1 seg2 = 0 <;> simp [seg_intersection, h]
  · rw [show denDet seg1 seg2 =
        (seg1.1.x - seg1.2.x) * (seg2.1.y - seg2.2.y)
          - (seg1.1.y - seg1.2.y) * (seg2.1.x - seg2.2.x) from det2_mk _ _ _ _]
    exact det_zero_iff_linDep _ _ _ _

/-- C9: the geometric operations are total.  `seg_intersectionE`, which
models the fallible fraction constructions inside `seg_intersection`,
never reaches the domain-error branch: the `den_det = 0` guard has
already returned the absent result.  Moreover the divisor
`gcd(num, den)` used by `reduce` is never zero when `den` is nonzero,
so reduction never divides by zero. -/
theorem predicates_total (seg1 seg2 : Seg) (n d : Int) (hd : d ≠ 0) :
    seg_intersectionE seg1 seg2 = Except.ok (seg_intersection seg1 seg2)
    ∧ cppGcd n d ≠ 0 := by
  constructor
  · by_cases h : denDet seg1 seg2 = 0
    · simp [seg_intersectionE, seg_intersection, h]
    · simp [seg_intersectionE, seg_intersection, h, mkFraction]
  · exact cppGcd_ne_zero n hd

/-- Witness for `predicates_total` at concrete segments and a concrete
fraction. -/
theorem predicates_total_witness :
    ((-6 : Int) ≠ 0)
    ∧ (seg_intersectionE (⟨0, 0⟩, ⟨2, 2⟩) (⟨0, 2⟩, ⟨2, 0⟩)
          = Except.ok (seg_intersection (⟨0, 0⟩, ⟨2, 2⟩) (⟨0, 2⟩, ⟨2, 0⟩))
        ∧ cppGcd 3 (-6) ≠ 0) :=
  ⟨by decide, predicates_total (⟨0, 0⟩, ⟨2, 2⟩) (⟨0, 2⟩, ⟨2, 0⟩) 3 (-6) (by decide)⟩

lemma line1_ident (s1 s2 : Seg) :
    (s1.1.x - s1.2.x) * (ynumDet s1 s2 - s1.1.y * denDet s1 s2)
      = (s1.1.y - s1.2.y) * (xnumDet s1 s2 - s1.1.x * denDet s1 s2) := by
  simp only [xnumDet, ynumDet, denDet, endpointDet, det2_mk]
  ring

lemma line2_ident (s1 s2 : Seg) :
    (s2.1.x - s2.2.x) * (ynumDet s1 s2 - s2.1.y * denDet s1 s2)
      = (s2.1.y - s2.2.y) * (xnumDet s1 s2 - s2.1.x * denDet s1 s2) := by
  simp only [xnumDet, ynumDet, denDet, endpointDet, det2_mk]
  ring

lemma onLineQ_of_ident {A B : Point Int} {X Y D : Int} (hD : D ≠ 0)
    (h : (A.x - B.x) * (Y - A.y * D) = (A.y - B.y) * (X - A.x * D)) :
    OnLineQ A B ((X : Rat) / (D : Rat), (Y : Rat) / (D : Rat)) := by
  have hDQ : (D : Rat) ≠ 0 := Int.cast_ne_zero.mpr hD
  have hQ : ((A.x : Rat) - B.x) * ((Y : Rat) - A.y * D)
      = ((A.y : Rat) - B.y) * ((X : Rat) - A.x * D) := by
    exact_mod_cast h
  unfold OnLineQ
  push_cast
  field_simp
  linear_combination (-1 : Rat) * hQ



lemma unique_sol {A B C D : Point Int} {X Y Dd : Int} (hD : Dd ≠ 0)
    (hDd : Dd = (A.x - B.x) * (C.y - D.y) - (A.y - B.y) * (C.x - D.x))
    (hX : X = (A.x * B.y - A.y * B.x) * (C.x - D.x)
        - (C.x * D.y - C.y * D.x) * (A.x - B.x))
    (hY : Y = (A.x * B.y - A.y * B.x) * (C.y - D.y)
        - (C.x * D.y - C.y * D.x) * (A.y - B.y))
    (q : Rat × Rat) (h1 : OnLineQ A B q) (h2 : OnLineQ C D q) :
    q = ((X : Rat) / (Dd : Rat), (Y : Rat) / (Dd : Rat)) := by
  have hDQ : (Dd : Rat) ≠ 0 := Int.cast_ne_zero.mpr hD
  have hDdQ : (Dd : Rat) = ((A.x : Rat) - B.x) * ((C.y : Rat) - D.y)
      - ((A.y : Rat) - B.y) * ((C.x : Rat) - D.x) := by exact_mod_cast congrArg (fun z : Int => (z : Rat)) hDd
  have hXQ : (X : Rat) = ((A.x : Rat) * B.y - (A.y : Rat) * B.x) * ((C.x : Rat) - D.x)
      - ((C.x : Rat) * D.y - (C.y : Rat) * D.x) * ((A.x : Rat) - B.x) := by
    exact_mod_cast congrArg (fun z : Int => (z : Rat)) hX
  have hYQ : (Y : Rat) = ((A.x : Rat) * B.y - (A.y : Rat) * B.x) * ((C.y : Rat) - D.y)
      - ((C.x : Rat) * D.y - (C.y : Rat) * D.x) * ((A.y : Rat) - B.y) := by
    exact_mod_cast congrArg (fun z : Int => (z : Rat)) hY
  unfold OnLineQ at h1 h2
  push_cast at h1 h2
  refine Prod.ext ?_ ?_
  · show q.1 = _
    rw [eq_div_iff hDQ, hDdQ, hXQ]
    linear_combination (-((C.x : Rat) - (D.x : Rat))) * h1 + ((A.x : Rat) - (B.x : Rat)) * h2
  · show q.2 = _
    rw [eq_div_iff hDQ, hDdQ, hYQ]
    linear_combination (-((C.y : Rat) - (D.y : Rat))) * h1 + ((A.y : Rat) - (B.y : Rat)) * h2



/-- C4: whenever the denominator determinant of the endpoint
differences is nonzero, `seg_intersection` returns a point whose
coordinates, read as exact rationals, satisfy the equations of both
infinite lines and are the unique such rational point; each coordinate
fraction is in lowest terms.  On segments `(0,0)-(2,2)` and
`(0,2)-(2,0)` the result is exactly `(1/1, 1/1)`. -/
theorem seg_intersection_cramer :
    (∀ s1 s2 : Seg, denDet s1 s2 ≠ 0 →
      ∃ fx fy : Fraction,
        seg_intersection s1 s2 = some ⟨fx, fy⟩
        ∧ Int.gcd fx.num fx.den = 1 ∧ Int.gcd fy.num fy.den = 1
        ∧ OnLineQ s1.1 s1.2 (fracPointQ fx fy)
        ∧ OnLineQ s2.1 s2.2 (fracPointQ fx fy)
        ∧ ∀ q : Rat × Rat, OnLineQ s1.1 s1.2 q → OnLineQ s2.1 s2.2 q →
            q = fracPointQ fx fy)
    ∧ seg_intersection (⟨0, 0⟩, ⟨2, 2⟩) (⟨0, 2⟩, ⟨2, 0⟩)
        = some ⟨⟨1, 1⟩, ⟨1, 1⟩⟩ := by
  constructor
  · intro s1 s2 hD
    have hfrac : fracPointQ (Fraction.mk (xnumDet s1 s2) (denDet s1 s2)).reduce
        (Fraction.mk (ynumDet s1 s2) (denDet s1 s2)).reduce
        = ((xnumDet s1 s2 : Rat) / (denDet s1 s2 : Rat),
           (ynumDet s1 s2 : Rat) / (denDet s1 s2 : Rat)) :=
      Prod.ext (reduce_ratQ _ _ hD) (reduce_ratQ _ _ hD)
    refine ⟨(Fraction.mk (xnumDet s1 s2) (denDet s1 s2)).reduce,
        (Fraction.mk (ynumDet s1 s2) (denDet s1 s2)).reduce,
        ?_, reduce_gcd_one _ _ hD, reduce_gcd_one _ _ hD, ?_, ?_, ?_⟩
    · simp [seg_intersection, hD]
    · rw [hfrac]
      exact onLineQ_of_ident hD (line1_ident s1 s2)
    · rw [hfrac]
      exact onLineQ_of_ident hD (line2_ident s1 s2)
    · intro q h1 h2
      rw [hfrac]
      refine unique_sol hD ?_ ?_ ?_ q h1 h2
      · simp only [denDet, det2_mk]
      · simp only [xnumDet, endpointDet, det2_mk]
        ring
      · simp only [ynumDet, endpointDet, det2_mk]
        ring
  · decide

/-- Witness for `seg_intersection_cramer` at the crossing diagonals of
the unit square scaled by two. -/
theorem seg_intersection_cramer_witness :
    (denDet (⟨0, 0⟩, ⟨2, 2⟩) (⟨0, 2⟩, ⟨2, 0⟩) ≠ 0)
    ∧ ∃ fx fy : Fraction,
        seg_intersection (⟨0, 0⟩, ⟨2, 2⟩) (⟨0, 2⟩, ⟨2, 0⟩) = some ⟨fx, fy⟩
        ∧ Int.gcd fx.num fx.den = 1 ∧ Int.gcd fy.num fy.den = 1
        ∧ OnLineQ ⟨0, 0⟩ ⟨2, 2⟩ (fracPointQ fx fy)
        ∧ OnLineQ ⟨0, 2⟩ ⟨2, 0⟩ (fracPointQ fx fy)
        ∧ ∀ q : Rat × Rat, OnLineQ ⟨0, 0⟩ ⟨2, 2⟩ q → OnLineQ ⟨0, 2⟩ ⟨2, 0⟩ q →
            q = fracPointQ fx fy :=
  ⟨by decide, seg_intersection_cramer.1 (⟨0, 0⟩, ⟨2, 2⟩) (⟨0, 2⟩, ⟨2, 0⟩) (by decide)⟩

end geo
